import Mathlib

/-!
Verification of the TweetVault web layer against its specification.

The development shallowly embeds, in Lean, the parts of the repository the
claims are about:

* the single-flight classifier route (`src/unnamed/part_001`: global
  `classifierState`, `broadcast`, `startProcess`, `handleOutput`, the `POST`
  stream handler and its `cancel` callback) as a small-step transition
  system on an explicit state;
* the legacy per-request classifier route (`src/unnamed/part_002`) whose
  stream `cancel` callback kills the spawned process;
* the data layer (`src/web/lib/data.ts`): `getCategoryDescriptions`,
  `getTweets`, `getClassifiedTweets`, `getCategories`,
  `getTweetsByCategory`, `getStats`;
* the AI client (`src/web/lib/ai.ts`, `findRelevantCategories`): fenced
  code-block stripping, strict JSON parse, greedy regex fallback, and the
  transport error paths;
* the AI search route (`src/unnamed/part_001`, `GET`): category/keyword
  filtering and id-deduplicating merge.

JavaScript objects are modelled as association lists, JS string truthiness
explicitly, and `JSON.parse` by an executable recursive-descent parser over
the JSON fragment the repository exchanges (objects, arrays, strings with
the common escapes, integers, booleans, null).
-/

namespace TweetVault

/-! ## Messages of the classifier event stream (`src/unnamed/part_001`)

`handleOutput` turns each non-empty line of the subprocess output into a
message object: structured JSON lines keep their shape (`type: "progress"`,
`type: "status"`, a line whose `type` is `"done"` or whose `done` field is
truthy, any other JSON object), non-JSON stdout lines become `{line}`,
stderr lines become `{error}`.  The route itself additionally produces
`{done, code}` in the `close` handler and a synthetic `{done, code: 0}`
for a subscriber attaching after completion. -/

inductive Msg where
  | progress : Msg
  | status : Msg
  | pyDone : Msg
  | json : String → Msg
  | raw : String → Msg
  | err : String → Msg
  | closeDone : Int → Msg
  | syntheticDone : Msg
deriving DecidableEq, Repr

/-- A done-shaped event as recognized by the repository's own consumer
(`classify-panel.tsx`: `data.done || data.type === "done"`). -/
def isDoneEvent : Msg → Bool
  | Msg.pyDone => true
  | Msg.closeDone _ => true
  | Msg.syntheticDone => true
  | _ => false

/-- A terminal done event generated by the route itself (the `close`
handler's `{done, code}` broadcast, or the synthetic `{done, code: 0}`
sent to a subscriber attaching after completion) as opposed to a
done-shaped message forwarded verbatim from the classifier's output. -/
def routeDone : Msg → Bool
  | Msg.closeDone _ => true
  | Msg.syntheticDone => true
  | _ => false

/-- One non-empty line of classifier process output, classified the way
`handleOutput` classifies it. -/
inductive Line where
  | progressLine : Line
  | statusLine : Line
  | doneLine : Line
  | jsonLine : String → Line
  | rawLine : String → Line
  | errLine : String → Line
deriving DecidableEq, Repr

/-- The message object `handleOutput` builds for a line. -/
def msgOfLine : Line → Msg
  | Line.progressLine => Msg.progress
  | Line.statusLine => Msg.status
  | Line.doneLine => Msg.pyDone
  | Line.jsonLine s => Msg.json s
  | Line.rawLine s => Msg.raw s
  | Line.errLine s => Msg.err s

/-- One subscriber of the event stream.  `received` is the ordered list of
messages enqueued on its controller; `closed` means its stream has ended
(its controller was closed, or its client cancelled), so `received` is
final; `closedByDone` records that it was closed by the terminal `close`
broadcast (or the synthetic done at attach), not by client cancellation.
The JS `state.subscribers` set contains exactly the subscribers with
`closed = false`; closed ones are retained here so that per-subscriber
delivery histories can be stated. -/
structure SubState where
  sid : Nat
  received : List Msg
  closed : Bool
  closedByDone : Bool
deriving DecidableEq, Repr

/-- The module-level `classifierState` of `src/unnamed/part_001` plus a
ghost counter `activeProcs` of live spawned classifier processes
(incremented by `spawn`, decremented when `close` fires); `running`
models `state.process !== null`. -/
structure ClassifierState where
  running : Bool
  activeProcs : Nat
  logs : List Msg
  done : Bool
  latestProgress : Option Msg
  latestStatus : Option Msg
  subs : List SubState
  nextSid : Nat
deriving DecidableEq, Repr

/-- The initial `classifierState` value. -/
def initState : ClassifierState :=
  { running := false, activeProcs := 0, logs := [], done := false,
    latestProgress := none, latestStatus := none, subs := [], nextSid := 0 }

/-- `broadcast`: enqueue a message on every connected subscriber
(enqueueing on a closed controller throws and only removes it from the
set, so closed subscribers receive nothing). -/
def broadcast (s : ClassifierState) (m : Msg) : ClassifierState :=
  { s with subs := s.subs.map fun sub =>
      if sub.closed then sub else { sub with received := sub.received ++ [m] } }

/-- `startProcess`: returns at once if a process exists; otherwise resets
`logs`, `done`, `latestProgress`, `latestStatus` and spawns the
classifier, setting `state.process`. -/
def startProcess (s : ClassifierState) : ClassifierState :=
  if s.running then s
  else { s with
      running := true, activeProcs := s.activeProcs + 1,
      logs := [], done := false, latestProgress := none, latestStatus := none }

/-- `handleOutput` for one non-empty line: update `latestProgress` /
`latestStatus` / `done` according to the parsed message, push its JSON to
`state.logs`, and `broadcast` it. -/
def handleLine (s : ClassifierState) (l : Line) : ClassifierState :=
  let m := msgOfLine l
  let s1 :=
    match l with
    | Line.progressLine => { s with latestProgress := some m }
    | Line.statusLine => { s with latestStatus := some m }
    | Line.doneLine => { s with done := true }
    | _ => s
  broadcast { s1 with logs := s1.logs ++ [m] } m

/-- The stream `start` callback of `POST`: add a controller to the
subscriber set, immediately enqueue the whole backlog `state.logs`, and —
if the run already finished (`state.done && !state.process`) — enqueue a
synthetic `{done, code: 0}` and close the stream. -/
def subscribe (s : ClassifierState) : ClassifierState :=
  if s.done && !s.running then
    { s with
      subs := s.subs ++ [⟨s.nextSid, s.logs ++ [Msg.syntheticDone], true, true⟩],
      nextSid := s.nextSid + 1 }
  else
    { s with
      subs := s.subs ++ [⟨s.nextSid, s.logs, false, false⟩],
      nextSid := s.nextSid + 1 }

/-- The `POST` handler: start the process if none is running, then attach
the requester as a subscriber.  The two phases run in one synchronous JS
block, hence atomically here. -/
def postStep (s : ClassifierState) : ClassifierState :=
  subscribe (startProcess s)

/-- The process `close` handler: clear `state.process`, set `state.done`,
broadcast `{done, code}` to every connected subscriber, then close all
their streams and clear the set.  The broadcast and the closing loop are
fused into one traversal: connected subscribers get the terminal message
and are closed, already-closed ones are untouched. -/
def closeStep (s : ClassifierState) (code : Int) : ClassifierState :=
  if s.running then
    { s with
      running := false, activeProcs := s.activeProcs - 1, done := true,
      subs := s.subs.map fun sub =>
        if sub.closed then sub
        else { sub with
            received := sub.received ++ [Msg.closeDone code],
            closed := true, closedByDone := true } }
  else s

/-- The stream `cancel` callback: the disconnecting client's controller is
removed from the subscriber set; nothing else is touched (the comment in
the source: "We do NOT kill the process here"). -/
def cancelStep (s : ClassifierState) (i : Nat) : ClassifierState :=
  { s with subs := s.subs.map fun sub =>
      if sub.sid = i then { sub with closed := true } else sub }

/-- External events driving the classifier route. -/
inductive Op where
  | post : Op
  | output : Line → Op
  | procClose : Int → Op
  | cancel : Nat → Op
deriving DecidableEq, Repr

/-- One step of the route: process output and the close event can only
fire while a process is live. -/
def step (s : ClassifierState) (op : Op) : ClassifierState :=
  match op with
  | Op.post => postStep s
  | Op.output l => if s.running then handleLine s l else s
  | Op.procClose code => closeStep s code
  | Op.cancel i => cancelStep s i

/-- The state after a sequence of events, starting from the module's
initial state. -/
def runTrace (ops : List Op) : ClassifierState :=
  ops.foldl step initState

/-! ## The legacy per-request classifier route (`src/unnamed/part_002`)

Each `POST` spawns its own classifier process and streams its output to
the single requester; the stream's `cancel` callback calls `proc.kill()`. -/

/-- State of one legacy request: the spawned process's kill flag, the
messages sent to the requester, and whether the stream was closed. -/
structure LegacyState where
  killed : Bool
  sent : List Msg
  closed : Bool
deriving DecidableEq, Repr

/-- State right after the legacy `POST` spawned its process. -/
def legacyInit : LegacyState :=
  { killed := false, sent := [], closed := false }

/-- Events of the legacy route. -/
inductive LegacyOp where
  | stdoutLine : String → LegacyOp
  | stderrLine : String → LegacyOp
  | spawnError : String → LegacyOp
  | close : Int → LegacyOp
  | cancel : LegacyOp
deriving DecidableEq, Repr

/-- One step of the legacy route: stdout lines are sent as `{line}`,
stderr lines as `{error}`, a spawn error sends `{error}` then
`{done, code: 1}` and closes, `close` sends `{done, code}` and closes,
and `cancel` kills the process. -/
def legacyStep (s : LegacyState) (op : LegacyOp) : LegacyState :=
  match op with
  | LegacyOp.stdoutLine t =>
      if s.closed then s else { s with sent := s.sent ++ [Msg.raw t] }
  | LegacyOp.stderrLine t =>
      if s.closed then s else { s with sent := s.sent ++ [Msg.err t] }
  | LegacyOp.spawnError t =>
      if s.closed then s
      else { s with sent := s.sent ++ [Msg.err t, Msg.closeDone 1], closed := true }
  | LegacyOp.close code =>
      if s.closed then s
      else { s with sent := s.sent ++ [Msg.closeDone code], closed := true }
  | LegacyOp.cancel => { s with killed := true }

/-! ## The data layer (`src/web/lib/data.ts`)

JS objects parsed from JSON are modelled as association lists with the
object's key order; property lookup takes the (unique) binding of a key. -/

/-- Look up a key in an object modelled as an association list (keys are
unique, as produced by `JSON.parse`). -/
def getVal : List (String × String) → String → Option String
  | [], _ => none
  | p :: m, k => if p.1 = k then some p.2 else getVal m k

/-- `BASE_CATEGORIES` from `src/web/lib/data.ts`. -/
def BASE_CATEGORIES : List (String × String) :=
  [("tech_programming",
    "Coding tips, programming languages, developer tools, software engineering"),
   ("ai_ml",
    "Artificial intelligence, machine learning, LLMs, neural networks, data science"),
   ("business_startups",
    "Entrepreneurship, growth strategies, marketing, fundraising, product management"),
   ("personal_development",
    "Productivity, habits, mindset, career advice, self-improvement"),
   ("design_ui_ux",
    "User interface design, user experience, visual design, design tools"),
   ("finance_crypto", "Investing, cryptocurrency, trading, personal finance"),
   ("humor_memes", "Funny content, jokes, memes, entertainment"),
   ("news_politics", "Current events, political commentary, world news"),
   ("misc", "Content that doesn't fit other categories")]

/-- JS assignment of one property on an object with unique keys: an
existing key keeps its position and gets the new value, a new key is
appended. -/
def setKey : List (String × String) → String → String → List (String × String)
  | [], k, v => [(k, v)]
  | p :: m, k, v => if p.1 = k then (k, v) :: m else p :: setKey m k v

/-- `Object.assign(target, source)` on objects-as-association-lists. -/
def objAssign (base dyn : List (String × String)) : List (String × String) :=
  dyn.foldl (fun acc p => setKey acc p.1 p.2) base

/-- `getCategoryDescriptions`: spread `BASE_CATEGORIES` into a fresh
object, then `Object.assign` the parsed `categories.json` over it when
that file exists (`dyn = none` models a missing or null file). -/
def getCategoryDescriptions (dyn : Option (List (String × String))) :
    List (String × String) :=
  match dyn with
  | none => BASE_CATEGORIES
  | some d => objAssign BASE_CATEGORIES d

/-- The value the last binding of `k` in an object literal's entry list
would give it (later duplicate keys win, as in `Object.assign` applied
left to right). -/
def lastVal : List (String × String) → String → Option String
  | [], _ => none
  | p :: rest, k =>
    match lastVal rest k with
    | some v => some v
    | none => if p.1 = k then some p.2 else none

/-- One raw item record of the source export, with the fields `getTweets`
reads; `none` models an absent (or absent-parent) field. -/
structure RawTweet where
  rest_id : Option String
  full_text : Option String
  screen_name : Option String
  url : Option String
deriving DecidableEq, Repr

/-- A tweet as built by `getTweets`. -/
structure Tweet where
  id : String
  text : String
  author : String
  url : String
  categories : List String
deriving DecidableEq, Repr

/-- JS truthiness of an optional string: `undefined` and `""` are falsy. -/
def optTruthy : Option String → Bool
  | none => false
  | some s => !(s = "")

/-- `String.prototype.split` with a one-character separator. -/
def splitOnChar (sep : Char) : List Char → List (List Char)
  | [] => [[]]
  | c :: rest =>
    let r := splitOnChar sep rest
    if c = sep then [] :: r
    else
      match r with
      | h :: t => (c :: h) :: t
      | [] => [[c]]

/-- `url.split("/").pop()`: the last `/`-separated component. -/
def jsSplitPop (s : String) : String :=
  String.mk ((splitOnChar '/' s.data).getLast?.getD [])

/-- `tweet.metadata?.rest_id || tweet.url?.split("/").pop() || String(i)`:
the id of the raw record at index `i`. -/
def deriveId (restId url : Option String) (i : Nat) : String :=
  if optTruthy restId then restId.getD ""
  else
    let seg := url.map jsSplitPop
    if optTruthy seg then seg.getD "" else toString i

/-- The tweet `getTweets` builds from the raw record at index `i`:
`full_text || ""`, `screen_name || "unknown"`, `url || ""`,
`progress[id] || []`. -/
def mkTweet (t : RawTweet) (i : Nat) (progress : List (String × List String)) :
    Tweet :=
  let id := deriveId t.rest_id t.url i
  { id := id,
    text := if optTruthy t.full_text then t.full_text.getD "" else "",
    author := if optTruthy t.screen_name then t.screen_name.getD "" else "unknown",
    url := if optTruthy t.url then t.url.getD "" else "",
    categories := ((progress.find? fun p => p.1 = id).map fun p => p.2).getD [] }

/-- `getTweets` over a parsed source array and the `processed` map of
`progress.json`. -/
def getTweetsModel (raw : List RawTweet)
    (progress : List (String × List String)) : List Tweet :=
  raw.enum.map fun p => mkTweet p.2 p.1 progress

/-- `getClassifiedTweets`: tweets with `categories.length > 0`. -/
def getClassifiedTweets (raw : List RawTweet)
    (progress : List (String × List String)) : List Tweet :=
  (getTweetsModel raw progress).filter fun t => 0 < t.categories.length

/-- `getTweetsByCategory`. -/
def getTweetsByCategory (raw : List RawTweet)
    (progress : List (String × List String)) (categoryId : String) : List Tweet :=
  (getClassifiedTweets raw progress).filter fun t => t.categories.contains categoryId

/-- A category entry as built by `getCategories`. -/
structure Category where
  id : String
  name : String
  description : String
  count : Nat
deriving DecidableEq, Repr

/-- `\b\w` of JS regexes: a word character. -/
def isWordChar (c : Char) : Bool := c.isAlphanum || c = '_'

/-- `.replace(/\b\w/g, c => c.toUpperCase())`: uppercase every word
character that does not follow a word character. -/
def capWords : Bool → List Char → List Char
  | _, [] => []
  | prevWord, c :: rest =>
    (if isWordChar c && !prevWord then c.toUpper else c) ::
      capWords (isWordChar c) rest

/-- `id.replace(/_/g, " ").replace(/\b\w/g, c => c.toUpperCase())`. -/
def displayName (id : String) : String :=
  String.mk (capWords false (id.data.map fun c => if c = '_' then ' ' else c))

/-- Total occurrences of category `c` over the classified tweets'
category lists (the `counts` object of `getCategories`). -/
def categoryCount (tweets : List Tweet) (c : String) : Nat :=
  (tweets.map fun t => t.categories.count c).sum

/-- `getCategories`: description entries with a positive count, mapped to
`Category` values and stably sorted by descending count (JS `sort` with
`(a, b) => b.count - a.count` is stable). -/
def getCategories (raw : List RawTweet)
    (progress : List (String × List String))
    (dyn : Option (List (String × String))) : List Category :=
  let classified := getClassifiedTweets raw progress
  let entries := (getCategoryDescriptions dyn).filter fun p =>
    0 < categoryCount classified p.1
  let cats := entries.map fun p =>
    { id := p.1, name := displayName p.1, description := p.2,
      count := categoryCount classified p.1 : Category }
  cats.insertionSort fun a b => b.count ≤ a.count

/-- The record `getStats` returns. -/
structure Stats where
  totalTweets : Nat
  classifiedTweets : Nat
  totalCategories : Nat
deriving DecidableEq, Repr

/-- `getStats`. -/
def getStats (raw : List RawTweet)
    (progress : List (String × List String))
    (dyn : Option (List (String × String))) : Stats :=
  let all := getTweetsModel raw progress
  let classified := all.filter fun t => 0 < t.categories.length
  { totalTweets := all.length,
    classifiedTweets := classified.length,
    totalCategories := (getCategories raw progress dyn).length }

/-! ## The AI client (`src/web/lib/ai.ts`, `findRelevantCategories`)

The model text handling: trim, strip a surrounding fenced code block,
`JSON.parse`, and on failure the greedy regex fallback
`text.match(/\x7b[\s\S]*\x7d/)`. `JSON.parse` is modelled by an
executable recursive-descent parser of the JSON fragment exchanged here
(objects, arrays, strings with the common escapes, integers, booleans,
null); like `JSON.parse` it rejects trailing non-whitespace. -/

/-- The opening-brace character. -/
def lbrace : Char := Char.ofNat 123

/-- The closing-brace character. -/
def rbrace : Char := Char.ofNat 125

/-- The backtick character. -/
def btick : Char := Char.ofNat 96

/-- JSON whitespace (also what `trim` removes on the inputs at hand). -/
def isWs (c : Char) : Bool := c = ' ' || c = '\t' || c = '\n' || c = '\r'

/-- `String.prototype.trim` on char lists. -/
def trimChars (cs : List Char) : List Char :=
  ((cs.dropWhile isWs).reverse.dropWhile isWs).reverse

/-- `text.replace(/^\x60\x60\x60(?:json)?\n?/, "")` for a text known to
start with three backticks: drop them, then an immediately following
`json`, then one newline. -/
def stripFencePrefix (cs : List Char) : List Char :=
  match cs with
  | a :: b :: c :: rest =>
    if a = btick && b = btick && c = btick then
      let rest1 :=
        match rest with
        | 'j' :: 's' :: 'o' :: 'n' :: r => r
        | _ => rest
      match rest1 with
      | '\n' :: r => r
      | _ => rest1
    else cs
  | _ => cs

/-- `text.replace(/\n?\x60\x60\x60$/, "")`: drop a trailing fence and one
newline before it. -/
def stripFenceSuffix (cs : List Char) : List Char :=
  match cs.reverse with
  | a :: b :: c :: rest =>
    if a = btick && b = btick && c = btick then
      (match rest with
       | '\n' :: r => r
       | _ => rest).reverse
    else cs
  | _ => cs

/-- The fence-stripping step: applied only when the trimmed text starts
with three backticks. -/
def stripFence (cs : List Char) : List Char :=
  match cs with
  | a :: b :: c :: _ =>
    if a = btick && b = btick && c = btick then
      stripFenceSuffix (stripFencePrefix cs)
    else cs
  | _ => cs

/-- A JSON value (strings kept as char lists). -/
inductive Json where
  | null : Json
  | bool : Bool → Json
  | num : Int → Json
  | str : List Char → Json
  | arr : List Json → Json
  | obj : List (List Char × Json) → Json
deriving Repr

/-- Decode one escape character of a JSON string. -/
def escChar (e : Char) : Option Char :=
  if e = '"' then some '"'
  else if e = '\\' then some '\\'
  else if e = '/' then some '/'
  else if e = 'n' then some '\n'
  else if e = 't' then some '\t'
  else if e = 'r' then some '\r'
  else if e = 'b' then some (Char.ofNat 8)
  else if e = 'f' then some (Char.ofNat 12)
  else none

/-- Parse the remainder of a JSON string after the opening quote,
returning its contents and the input after the closing quote. -/
def parseStrChars : List Char → Option (List Char × List Char)
  | [] => none
  | c :: rest =>
    if c = '"' then some ([], rest)
    else if c = '\\' then
      match rest with
      | [] => none
      | e :: rest2 =>
        match escChar e with
        | none => none
        | some d => (parseStrChars rest2).map fun p => (d :: p.1, p.2)
    else (parseStrChars rest).map fun p => (c :: p.1, p.2)

/-- Parse a run of digits into a natural number (at least one digit). -/
def parseDigits (acc : Nat) : List Char → Option (Nat × List Char)
  | [] => some (acc, [])
  | c :: rest =>
    if c.isDigit then
      match parseDigits (acc * 10 + (c.toNat - 48)) rest with
      | some r => some r
      | none => none
    else some (acc, rest)

/-- Drop JSON whitespace. -/
def skipWs (cs : List Char) : List Char := cs.dropWhile isWs

mutual

/-- Parse one JSON value (fuel-indexed recursive descent). -/
def parseVal : Nat → List Char → Option (Json × List Char)
  | 0, _ => none
  | fuel + 1, cs =>
    match skipWs cs with
    | [] => none
    | c :: rest =>
      if c = '"' then
        (parseStrChars rest).map fun p => (Json.str p.1, p.2)
      else if c = lbrace then
        (parseObjItems fuel true rest).map fun p => (Json.obj p.1, p.2)
      else if c = '[' then
        (parseArrItems fuel true rest).map fun p => (Json.arr p.1, p.2)
      else
        match c :: rest with
        | 't' :: 'r' :: 'u' :: 'e' :: r => some (Json.bool true, r)
        | 'f' :: 'a' :: 'l' :: 's' :: 'e' :: r => some (Json.bool false, r)
        | 'n' :: 'u' :: 'l' :: 'l' :: r => some (Json.null, r)
        | '-' :: d :: r =>
          if d.isDigit then
            (parseDigits (d.toNat - 48) r).map fun p => (Json.num (-(p.1 : Int)), p.2)
          else none
        | d :: r =>
          if d.isDigit then
            (parseDigits (d.toNat - 48) r).map fun p => (Json.num (p.1 : Int), p.2)
          else none
        | [] => none

/-- Parse array items after `[`; `first` marks that no item was read yet
(so `]` may close immediately, and no comma is expected). -/
def parseArrItems : Nat → Bool → List Char → Option (List Json × List Char)
  | 0, _, _ => none
  | fuel + 1, first, cs =>
    match skipWs cs with
    | [] => none
    | c :: rest =>
      if c = ']' && first then some ([], rest)
      else
        let body := if first then c :: rest else
          if c = ',' then rest else []
        if !first && c ≠ ',' && c ≠ ']' then none
        else if c = ']' && !first then some ([], rest)
        else
          match parseVal fuel body with
          | none => none
          | some (v, after) =>
            match parseArrItems fuel false after with
            | none => none
            | some (vs, fin) => some (v :: vs, fin)

/-- Parse object members after the opening brace; `first` as for arrays. -/
def parseObjItems : Nat → Bool → List Char →
    Option (List (List Char × Json) × List Char)
  | 0, _, _ => none
  | fuel + 1, first, cs =>
    match skipWs cs with
    | [] => none
    | c :: rest =>
      if c = rbrace && first then some ([], rest)
      else
        let body := if first then c :: rest else
          if c = ',' then rest else []
        if !first && c ≠ ',' && c ≠ rbrace then none
        else if c = rbrace && !first then some ([], rest)
        else
          match skipWs body with
          | q :: afterQ =>
            if q = '"' then
              match parseStrChars afterQ with
              | none => none
              | some (key, afterKey) =>
                match skipWs afterKey with
                | ':' :: afterColon =>
                  match parseVal fuel afterColon with
                  | none => none
                  | some (v, after) =>
                    match parseObjItems fuel false after with
                    | none => none
                    | some (fs, fin) => some ((key, v) :: fs, fin)
                | _ => none
            else none
          | [] => none

end

/-- `JSON.parse`: parse one value and reject trailing non-whitespace. -/
def jsonParseStrict (cs : List Char) : Option Json :=
  match parseVal (cs.length + 1) cs with
  | some (v, rest) => if skipWs rest = [] then some v else none
  | none => none

/-- Extract the string entries of an array-valued field, with JS `||`
semantics collapsing an absent or falsy field to `[]`. -/
def fieldStrings (v : Json) (k : String) : List String :=
  match v with
  | Json.obj fs =>
    match (fs.find? fun p => p.1 = k.data).map fun p => p.2 with
    | some (Json.arr xs) =>
      xs.filterMap fun x =>
        match x with
        | Json.str s => some (String.mk s)
        | _ => none
    | _ => []
  | _ => []

/-- The regex fallback `text.match(/\x7b[\s\S]*\x7d/)`: the substring
from the first opening brace to the last closing brace after it, when
both exist. -/
def firstBraceToLast (cs : List Char) : Option (List Char) :=
  match cs.dropWhile fun c => c ≠ lbrace with
  | [] => none
  | b :: tail =>
    match tail.reverse.dropWhile fun c => c ≠ rbrace with
    | [] => none
    | r :: revMid => some (b :: (r :: revMid).reverse)

/-- The parsing pipeline of `findRelevantCategories` applied to the
model's message content: trim, strip a fenced block, strict parse; on
failure, parse the greedy brace-to-brace match; on any failure return
empty category and keyword lists. -/
def findRelevantCategoriesParse (content : String) : List String × List String :=
  let text := stripFence (trimChars content.data)
  match jsonParseStrict text with
  | some v => (fieldStrings v "categories", fieldStrings v "keywords")
  | none =>
    match firstBraceToLast text with
    | some sub =>
      match jsonParseStrict sub with
      | some v => (fieldStrings v "categories", fieldStrings v "keywords")
      | none => ([], [])
    | none => ([], [])

/-- Modelled from the spec: the fallback stage described by the
specification locates the first *balanced* top-level brace-delimited
object by a depth-counting scan from the first opening brace. -/
def balancedScan (depth : Nat) (acc : List Char) : List Char → Option (List Char)
  | [] => none
  | c :: rest =>
    if c = lbrace then balancedScan (depth + 1) (acc ++ [c]) rest
    else if c = rbrace then
      match depth with
      | 0 => none
      | 1 => some (acc ++ [c])
      | d + 2 => balancedScan (d + 1) (acc ++ [c]) rest
    else balancedScan depth (acc ++ [c]) rest

/-- Modelled from the spec: the first balanced top-level brace-delimited
object of a text. -/
def firstBalancedObject (cs : List Char) : Option (List Char) :=
  match cs.dropWhile fun c => c ≠ lbrace with
  | [] => none
  | b :: tail => balancedScan 1 [b] tail

/-- Modelled from the spec: the two-stage parse policy as the
specification words it — strict parse of the fence-stripped text, and on
failure a structural scan for the first balanced brace-delimited object. -/
def specTwoStageParse (content : String) : List String × List String :=
  let text := stripFence (trimChars content.data)
  match jsonParseStrict text with
  | some v => (fieldStrings v "categories", fieldStrings v "keywords")
  | none =>
    match firstBalancedObject text with
    | some sub =>
      match jsonParseStrict sub with
      | some v => (fieldStrings v "categories", fieldStrings v "keywords")
      | none => ([], [])
    | none => ([], [])

/-- The HTTP response of the chat-completion call, as
`findRelevantCategories` consumes it: status, raw body text, and the
extracted `data.choices[0].message.content`. -/
structure FetchResp where
  status : Nat
  body : String
  content : String
deriving DecidableEq, Repr

/-- `resp.ok`: a 2xx status. -/
def respOk (r : FetchResp) : Bool := 200 ≤ r.status && r.status ≤ 299

/-- `findRelevantCategories` up to its result or thrown error: a falsy
`OPENROUTER_API_KEY` throws before the request; a non-2xx response throws
after it; otherwise the content is parsed. -/
def findRelevantCategoriesRun (apiKey : Option String) (r : FetchResp) :
    Except String (List String × List String) :=
  match apiKey with
  | none => Except.error "OPENROUTER_API_KEY not set"
  | some k =>
    if k = "" then Except.error "OPENROUTER_API_KEY not set"
    else if !respOk r then
      Except.error ("OpenRouter API error " ++ toString r.status ++ ": " ++ r.body)
    else Except.ok (findRelevantCategoriesParse r.content)

/-- Whether an `Except` result is an error. -/
def isErrorE : Except String (List String × List String) → Bool
  | Except.error _ => true
  | Except.ok _ => false

/-! ## The AI search route (`src/unnamed/part_001`, `GET` of
`/api/search` in AI mode) -/

/-- `s1.toLowerCase().includes(s2.toLowerCase())` on char lists. -/
def lowerContains (hay needle : List Char) : Bool :=
  decide (List.IsInfix (needle.map Char.toLower) (hay.map Char.toLower))

/-- Whether a tweet matches one of the AI-selected categories:
`t.categories.some(c => categories.includes(c))`. -/
def matchesCategory (cats : List String) (t : Tweet) : Bool :=
  t.categories.any fun c => cats.contains c

/-- Whether a tweet matches one of the AI-suggested keywords against the
lowercased `"{text} {author}"` haystack. -/
def matchesKeyword (keywords : List String) (t : Tweet) : Bool :=
  keywords.any fun k => lowerContains (t.text ++ " " ++ t.author).data k.data

/-- The deduplication pass over the concatenated results: keep a tweet
only if its id was not seen before. -/
def dedupById (seen : List String) : List Tweet → List Tweet
  | [] => []
  | t :: rest =>
    if seen.contains t.id then dedupById seen rest
    else t :: dedupById (t.id :: seen) rest

/-- The merged AI-search result list: category matches, then keyword
matches, deduplicated by id. -/
def aiMerge (allTweets : List Tweet) (cats keywords : List String) : List Tweet :=
  let byCategory := allTweets.filter (matchesCategory cats)
  let byKeyword := allTweets.filter (matchesKeyword keywords)
  dedupById [] (byCategory ++ byKeyword)

/-- The seen-id accumulator after the deduplication pass has processed a
list of tweets. -/
def seenAfter (seen : List String) : List Tweet → List String
  | [] => seen
  | t :: rest =>
    if seen.contains t.id then seenAfter seen rest
    else seenAfter (t.id :: seen) rest

/-! ## Definitions modelled from the claims' own words, for comparison -/

/-- Modelled from the claim: the identity rule as stated — the stable
external id when present, otherwise the trailing path segment of the URL
when the URL is present, otherwise the positional index. -/
def specDeriveId (restId url : Option String) (i : Nat) : String :=
  match restId with
  | some r => r
  | none =>
    match url with
    | some u => jsSplitPop u
    | none => toString i

/-- The trailing-segment fallback of the amended identity rule. -/
def specUrlSegment (url : Option String) (i : Nat) : String :=
  match url with
  | some u => if jsSplitPop u = "" then toString i else jsSplitPop u
  | none => toString i

/-- The amended identity rule: the stable external id when present and
non-empty, otherwise the trailing path segment of the URL when the URL is
present and that segment is non-empty, otherwise the positional index. -/
def specDeriveIdAmended (restId url : Option String) (i : Nat) : String :=
  match restId with
  | some r => if r = "" then specUrlSegment url i else r
  | none => specUrlSegment url i

/-! ## Invariants of the classifier route -/

/-- Forwarded process-output messages are never route-generated terminal
done events. -/
theorem routeDone_msgOfLine (l : Line) : routeDone (msgOfLine l) = false := by
  cases l <;> rfl

/-- The state invariant of the classifier route: the ghost process count
matches the `state.process` flag; the backlog holds no route-generated
done event; once no process is live every stream has ended; every open
subscriber has received exactly the backlog; and a subscriber's stream
contains a route-generated done event exactly when it was closed by the
terminal broadcast, in which case that event is last and unique. -/
structure Inv (s : ClassifierState) : Prop where
  active : s.activeProcs = if s.running then 1 else 0
  logsClean : ∀ m ∈ s.logs, routeDone m = false
  stoppedClosed : s.running = false → ∀ sub ∈ s.subs, sub.closed = true
  openFull : ∀ sub ∈ s.subs, sub.closed = false → sub.received = s.logs
  doneClosed : ∀ sub ∈ s.subs, sub.closedByDone = true → sub.closed = true
  doneOnce : ∀ sub ∈ s.subs, sub.closedByDone = true →
    ∃ pre d, sub.received = pre ++ [d] ∧ routeDone d = true ∧
      ∀ m ∈ pre, routeDone m = false
  noDoneYet : ∀ sub ∈ s.subs, sub.closedByDone = false →
    ∀ m ∈ sub.received, routeDone m = false

/-- The invariant holds initially. -/
theorem inv_init : Inv initState := by
  constructor <;> simp [initState]

/-- The invariant is preserved by a start request. -/
theorem inv_post (s : ClassifierState) (h : Inv s) : Inv (postStep s) := by
  obtain ⟨ha, hl, hsc, hof, hdc, hdo, hnd⟩ := h
  cases hr : s.running with
  | true =>
    have hps : postStep s =
        { s with
          subs := s.subs ++ [⟨s.nextSid, s.logs, false, false⟩],
          nextSid := s.nextSid + 1 } := by
      simp [postStep, startProcess, subscribe, hr]
    rw [hps]
    constructor
    · simpa using ha
    · simpa using hl
    · intro hrf
      simp at hrf
      simp [hr] at hrf
    · intro sub hsub hcl
      rcases List.mem_append.mp hsub with hm | hm
      · exact hof sub hm hcl
      · simp at hm
        subst hm
        rfl
    · intro sub hsub hbd
      rcases List.mem_append.mp hsub with hm | hm
      · exact hdc sub hm hbd
      · simp at hm
        subst hm
        simp at hbd
    · intro sub hsub hbd
      rcases List.mem_append.mp hsub with hm | hm
      · exact hdo sub hm hbd
      · simp at hm
        subst hm
        simp at hbd
    · intro sub hsub hbd
      rcases List.mem_append.mp hsub with hm | hm
      · exact hnd sub hm hbd
      · simp at hm
        subst hm
        simpa using hl
  | false =>
    have hps : postStep s =
        { s with
          running := true, activeProcs := s.activeProcs + 1,
          logs := [], done := false, latestProgress := none, latestStatus := none,
          subs := s.subs ++ [⟨s.nextSid, [], false, false⟩],
          nextSid := s.nextSid + 1 } := by
      simp [postStep, startProcess, subscribe, hr]
    rw [hps]
    constructor
    · simp
      rw [hr] at ha
      simpa using ha
    · simp
    · intro hrf
      simp at hrf
    · intro sub hsub hcl
      rcases List.mem_append.mp hsub with hm | hm
      · have := hsc hr sub hm
        rw [this] at hcl
        cases hcl
      · simp at hm
        subst hm
        rfl
    · intro sub hsub hbd
      rcases List.mem_append.mp hsub with hm | hm
      · exact hdc sub hm hbd
      · simp at hm
        subst hm
        simp at hbd
    · intro sub hsub hbd
      rcases List.mem_append.mp hsub with hm | hm
      · exact hdo sub hm hbd
      · simp at hm
        subst hm
        simp at hbd
    · intro sub hsub hbd
      rcases List.mem_append.mp hsub with hm | hm
      · exact hnd sub hm hbd
      · simp at hm
        subst hm
        simp

/-- Core of output handling: pushing a forwarded (non-terminal) message
to the backlog and broadcasting it preserves the invariant, whatever the
update to `done` / `latestProgress` / `latestStatus` was. -/
theorem inv_broadcast_push (s1 : ClassifierState) (m : Msg)
    (hm : routeDone m = false)
    (hr : s1.running = true)
    (ha : s1.activeProcs = 1)
    (hl : ∀ x ∈ s1.logs, routeDone x = false)
    (hof : ∀ sub ∈ s1.subs, sub.closed = false → sub.received = s1.logs)
    (hdc : ∀ sub ∈ s1.subs, sub.closedByDone = true → sub.closed = true)
    (hdo : ∀ sub ∈ s1.subs, sub.closedByDone = true →
      ∃ pre d, sub.received = pre ++ [d] ∧ routeDone d = true ∧
        ∀ x ∈ pre, routeDone x = false)
    (hnd : ∀ sub ∈ s1.subs, sub.closedByDone = false →
      ∀ x ∈ sub.received, routeDone x = false) :
    Inv (broadcast { s1 with logs := s1.logs ++ [m] } m) := by
  constructor
  · simp [broadcast, hr, ha]
  · simp only [broadcast]
    intro x hx
    rcases List.mem_append.mp hx with hx' | hx'
    · exact hl x hx'
    · simp at hx'
      subst hx'
      exact hm
  · intro hrf
    simp [broadcast, hr] at hrf
  · intro sub' hsub' hop
    simp only [broadcast] at hsub'
    obtain ⟨sub, hmem, rfl⟩ := List.mem_map.mp hsub'
    by_cases hc : sub.closed = true
    · simp [hc] at hop
    · have hc' : sub.closed = false := by simpa using hc
      simp only [broadcast, hc', if_false, Bool.false_eq_true]
      simp [hof sub hmem hc']
  · intro sub' hsub' hbd
    simp only [broadcast] at hsub'
    obtain ⟨sub, hmem, rfl⟩ := List.mem_map.mp hsub'
    by_cases hc : sub.closed = true
    · simp [hc]
    · have hc' : sub.closed = false := by simpa using hc
      simp [hc'] at hbd
      exact absurd (hdc sub hmem hbd) hc
  · intro sub' hsub' hbd
    simp only [broadcast] at hsub'
    obtain ⟨sub, hmem, rfl⟩ := List.mem_map.mp hsub'
    by_cases hc : sub.closed = true
    · simp [hc] at hbd ⊢
      exact hdo sub hmem hbd
    · have hc' : sub.closed = false := by simpa using hc
      simp [hc'] at hbd
      exact absurd (hdc sub hmem hbd) hc
  · intro sub' hsub' hbd
    simp only [broadcast] at hsub'
    obtain ⟨sub, hmem, rfl⟩ := List.mem_map.mp hsub'
    by_cases hc : sub.closed = true
    · simp [hc] at hbd ⊢
      exact hnd sub hmem hbd
    · have hc' : sub.closed = false := by simpa using hc
      simp [hc'] at hbd ⊢
      intro x hx
      rcases hx with hx' | hx'
      · exact hnd sub hmem hbd x hx'
      · subst hx'
        exact hm

/-- The invariant is preserved by process output. -/
theorem inv_output (s : ClassifierState) (l : Line) (h : Inv s) :
    Inv (step s (Op.output l)) := by
  by_cases hr : s.running = true
  · have hm := routeDone_msgOfLine l
    have ha1 : s.activeProcs = 1 := by rw [h.active, if_pos hr]
    simp only [step, hr, if_true]
    cases l <;>
      exact inv_broadcast_push _ _ hm hr ha1 h.logsClean h.openFull
        h.doneClosed h.doneOnce h.noDoneYet
  · have hr' : s.running = false := by simpa using hr
    simpa [step, hr'] using h

/-- The invariant is preserved by the process close event. -/
theorem inv_close (s : ClassifierState) (code : Int) (h : Inv s) :
    Inv (step s (Op.procClose code)) := by
  by_cases hr : s.running = true
  · have ha0 : s.activeProcs = 1 := by rw [h.active, if_pos hr]
    have hcs : step s (Op.procClose code) =
        { s with
          running := false, activeProcs := s.activeProcs - 1, done := true,
          subs := s.subs.map fun sub =>
            if sub.closed then sub
            else { sub with
                received := sub.received ++ [Msg.closeDone code],
                closed := true, closedByDone := true } } := by
      simp [step, closeStep, hr]
    rw [hcs]
    constructor
    · simp [ha0]
    · exact h.logsClean
    · intro _ sub' hsub'
      obtain ⟨sub, hmem, rfl⟩ := List.mem_map.mp hsub'
      by_cases hc : sub.closed = true <;> simp [hc]
    · intro sub' hsub' hop
      obtain ⟨sub, hmem, rfl⟩ := List.mem_map.mp hsub'
      by_cases hc : sub.closed = true <;> simp [hc] at hop
    · intro sub' hsub' _
      obtain ⟨sub, hmem, rfl⟩ := List.mem_map.mp hsub'
      by_cases hc : sub.closed = true <;> simp [hc]
    · intro sub' hsub' hbd
      obtain ⟨sub, hmem, rfl⟩ := List.mem_map.mp hsub'
      by_cases hc : sub.closed = true
      · simp [hc] at hbd ⊢
        exact h.doneOnce sub hmem hbd
      · have hc' : sub.closed = false := by simpa using hc
        have hnb : sub.closedByDone = false := by
          by_cases hb : sub.closedByDone = true
          · exact absurd (h.doneClosed sub hmem hb) hc
          · simpa using hb
        simp [hc']
        exact ⟨sub.received, Msg.closeDone code, rfl, rfl,
          h.noDoneYet sub hmem hnb⟩
    · intro sub' hsub' hbd
      obtain ⟨sub, hmem, rfl⟩ := List.mem_map.mp hsub'
      by_cases hc : sub.closed = true
      · simp [hc] at hbd ⊢
        exact h.noDoneYet sub hmem hbd
      · have hc' : sub.closed = false := by simpa using hc
        simp [hc'] at hbd
  · have hr' : s.running = false := by simpa using hr
    simpa [step, closeStep, hr'] using h

/-- The invariant is preserved by a subscriber disconnecting. -/
theorem inv_cancel (s : ClassifierState) (i : Nat) (h : Inv s) :
    Inv (step s (Op.cancel i)) := by
  have hcs : step s (Op.cancel i) =
      { s with subs := s.subs.map fun sub =>
          if sub.sid = i then { sub with closed := true } else sub } := by
    simp [step, cancelStep]
  rw [hcs]
  constructor
  · exact h.active
  · exact h.logsClean
  · intro hrf sub' hsub'
    obtain ⟨sub, hmem, rfl⟩ := List.mem_map.mp hsub'
    by_cases hs : sub.sid = i <;> simp [hs]
    exact h.stoppedClosed hrf sub hmem
  · intro sub' hsub' hop
    obtain ⟨sub, hmem, rfl⟩ := List.mem_map.mp hsub'
    by_cases hs : sub.sid = i
    · simp [hs] at hop
    · simp [hs] at hop ⊢
      exact h.openFull sub hmem hop
  · intro sub' hsub' hbd
    obtain ⟨sub, hmem, rfl⟩ := List.mem_map.mp hsub'
    by_cases hs : sub.sid = i <;> simp [hs] at hbd ⊢
    exact h.doneClosed sub hmem hbd
  · intro sub' hsub' hbd
    obtain ⟨sub, hmem, rfl⟩ := List.mem_map.mp hsub'
    by_cases hs : sub.sid = i <;> simp [hs] at hbd ⊢
    · exact h.doneOnce sub hmem hbd
    · exact h.doneOnce sub hmem hbd
  · intro sub' hsub' hbd
    obtain ⟨sub, hmem, rfl⟩ := List.mem_map.mp hsub'
    by_cases hs : sub.sid = i <;> simp [hs] at hbd ⊢
    · exact h.noDoneYet sub hmem hbd
    · exact h.noDoneYet sub hmem hbd

/-- The invariant is preserved by every step. -/
theorem inv_step (s : ClassifierState) (op : Op) (h : Inv s) :
    Inv (step s op) := by
  cases op with
  | post => exact inv_post s h
  | output l => exact inv_output s l h
  | procClose code => exact inv_close s code h
  | cancel i => exact inv_cancel s i h

/-- The invariant holds after any sequence of steps from an invariant
state. -/
theorem inv_foldl (ops : List Op) (s : ClassifierState) (h : Inv s) :
    Inv (ops.foldl step s) := by
  induction ops generalizing s with
  | nil => exact h
  | cons op rest ih => exact ih _ (inv_step s op h)

/-- The invariant holds in every reachable state of the classifier
route. -/
theorem inv_runTrace (ops : List Op) : Inv (runTrace ops) :=
  inv_foldl ops initState inv_init

/-! ## Claim theorems: the classifier route -/

/-- C1: after any sequence of requests and process events, at most one
classifier process is live, and a start request arriving while a run is
active spawns nothing: it leaves the process count and the backlog
unchanged and merely appends the requester, primed with the backlog, to
the subscriber set. -/
theorem claim_single_flight (ops : List Op) :
    (runTrace ops).activeProcs ≤ 1 ∧
    ∀ s : ClassifierState, s.running = true →
      (step s Op.post).activeProcs = s.activeProcs ∧
      (step s Op.post).logs = s.logs ∧
      (step s Op.post).subs = s.subs ++ [⟨s.nextSid, s.logs, false, false⟩] := by
  constructor
  · rw [(inv_runTrace ops).active]
    by_cases hr : (runTrace ops).running = true <;> simp [hr]
  · intro s hr
    have hps : step s Op.post =
        { s with
          subs := s.subs ++ [⟨s.nextSid, s.logs, false, false⟩],
          nextSid := s.nextSid + 1 } := by
      simp [step, postStep, startProcess, subscribe, hr]
    rw [hps]
    exact ⟨rfl, rfl, rfl⟩

/-- Witness for C1 at a concrete state with a run in flight. -/
theorem claim_single_flight_witness :
    (step (runTrace [Op.post]) Op.post).activeProcs =
      (runTrace [Op.post]).activeProcs :=
  ((claim_single_flight [Op.post]).2 (runTrace [Op.post]) (by decide)).1

/-- C2 counterexample: after the classifier prints a done-typed line and
the process then closes, the lone subscriber's delivered stream is
`[pyDone, closeDone 0]` — two done-shaped events as the repository's own
consumer recognizes them, and the first is not last; so a done event
does not appear exactly once. -/
theorem done_event_twice :
    (runTrace [Op.post, Op.output Line.doneLine, Op.procClose 0]).subs =
      [⟨0, [Msg.pyDone, Msg.closeDone 0], true, true⟩] ∧
    isDoneEvent Msg.pyDone = true ∧
    isDoneEvent (Msg.closeDone 0) = true := by
  decide

/-- C2 (amended): in any subscriber's delivered stream, a
*route-generated* terminal done event appears exactly once and last for
every subscriber closed by the terminal broadcast, and never otherwise;
done-typed messages forwarded from the classifier's own output may
additionally appear earlier. -/
theorem route_done_once_last (ops : List Op) :
    ∀ sub ∈ (runTrace ops).subs,
      (sub.closedByDone = true →
        ∃ pre d, sub.received = pre ++ [d] ∧ routeDone d = true ∧
          ∀ m ∈ pre, routeDone m = false) ∧
      (sub.closedByDone = false → ∀ m ∈ sub.received, routeDone m = false) :=
  fun sub hmem =>
    ⟨(inv_runTrace ops).doneOnce sub hmem, (inv_runTrace ops).noDoneYet sub hmem⟩

/-- Witness for the amended C2 on a completed run with one subscriber. -/
theorem route_done_once_last_witness :
    ∃ pre d, (SubState.mk 0 [Msg.closeDone 0] true true).received = pre ++ [d] ∧
      routeDone d = true ∧ ∀ m ∈ pre, routeDone m = false :=
  ((route_done_once_last [Op.post, Op.procClose 0])
    ⟨0, [Msg.closeDone 0], true, true⟩ (by decide)).1 rfl

/-- C3: at every reachable state, every subscriber whose stream is still
open has received exactly the run's full backlog, in emission order — on
attachment it was primed with the history emitted so far, and every
later event was appended in emission order; and the subscriber a start
request appends is primed with exactly the backlog of the (possibly just
started) run. -/
theorem subscriber_stream_is_history (ops : List Op) :
    (∀ sub ∈ (runTrace ops).subs, sub.closed = false →
      sub.received = (runTrace ops).logs) ∧
    ∀ s : ClassifierState, s.running = true →
      (step s Op.post).subs.getLast? = some ⟨s.nextSid, s.logs, false, false⟩ := by
  constructor
  · exact fun sub hmem hop => (inv_runTrace ops).openFull sub hmem hop
  · intro s hr
    have hps : step s Op.post =
        { s with
          subs := s.subs ++ [⟨s.nextSid, s.logs, false, false⟩],
          nextSid := s.nextSid + 1 } := by
      simp [step, postStep, startProcess, subscribe, hr]
    rw [hps]
    simp

/-- Witness for C3: a late event reaches the attached subscriber after
the replayed backlog. -/
theorem subscriber_stream_is_history_witness :
    (SubState.mk 0 [Msg.status] false false).received =
      (runTrace [Op.post, Op.output Line.statusLine]).logs :=
  (subscriber_stream_is_history [Op.post, Op.output Line.statusLine]).1
    ⟨0, [Msg.status], false, false⟩ (by decide) rfl

/-- C4 counterexample: the repository also contains the legacy
per-request classifier route (`src/unnamed/part_002`), and there a
subscriber disconnecting *does* kill the underlying classifier process —
its stream `cancel` callback calls `proc.kill()`; so, over every run of
the process-spawning routes as the claim is stated, stream cancellation
is not free of effect on the run. -/
theorem legacy_cancel_kills :
    (legacyStep legacyInit LegacyOp.cancel).killed = true ∧
    legacyInit.killed = false := by
  decide

/-- Helper: cancelling a subscriber changes no subscriber's identity,
delivered stream, or terminal-close flag. -/
theorem cancel_subs_map (l : List SubState) (i : Nat) :
    (l.map fun sub =>
        if sub.sid = i then { sub with closed := true } else sub).map
      (fun sub => (sub.sid, sub.received, sub.closedByDone)) =
    l.map fun sub => (sub.sid, sub.received, sub.closedByDone) := by
  induction l with
  | nil => rfl
  | cons x xs ih => by_cases hs : x.sid = i <;> simp [hs, ih]

/-- Helper: cancelling a subscriber leaves every other subscriber's
record untouched. -/
theorem cancel_subs_filter (l : List SubState) (i : Nat) :
    (l.map fun sub =>
        if sub.sid = i then { sub with closed := true } else sub).filter
      (fun sub => sub.sid != i) =
    l.filter fun sub => sub.sid != i := by
  induction l with
  | nil => rfl
  | cons x xs ih => by_cases hs : x.sid = i <;> simp [hs, ih]

/-- C4 (amended): on the single-flight classify route a subscriber
disconnecting only ends that subscriber's own stream: the process flag,
live-process count, backlog, done flag, every subscriber's delivered
stream and terminal flag, and every *other* subscriber's whole record
are unchanged — the route has no run-cancellation operation.  On the
legacy per-request route, by contrast, stream cancellation always kills
the spawned process. -/
theorem cancel_frame_single_flight (s : ClassifierState) (i : Nat) :
    (step s (Op.cancel i)).running = s.running ∧
    (step s (Op.cancel i)).activeProcs = s.activeProcs ∧
    (step s (Op.cancel i)).logs = s.logs ∧
    (step s (Op.cancel i)).done = s.done ∧
    (step s (Op.cancel i)).subs.map
        (fun sub => (sub.sid, sub.received, sub.closedByDone)) =
      s.subs.map (fun sub => (sub.sid, sub.received, sub.closedByDone)) ∧
    (step s (Op.cancel i)).subs.filter (fun sub => sub.sid != i) =
      s.subs.filter (fun sub => sub.sid != i) ∧
    ∀ ls : LegacyState, (legacyStep ls LegacyOp.cancel).killed = true := by
  refine ⟨rfl, rfl, rfl, rfl, ?_, ?_, fun ls => rfl⟩
  · exact cancel_subs_map s.subs i
  · exact cancel_subs_filter s.subs i

/-! ## Claim theorems: category catalog loading -/

/-- Helper: JS property assignment — the assigned key reads back the new
value, every other key is unchanged. -/
theorem getVal_setKey (m : List (String × String)) (k v k' : String) :
    getVal (setKey m k v) k' = if k' = k then some v else getVal m k' := by
  induction m with
  | nil =>
    by_cases hk : k' = k
    · simp [setKey, getVal, hk]
    · have hkk : ¬(k = k') := fun hh => hk hh.symm
      simp [setKey, getVal, hk, hkk]
  | cons p m ih =>
    by_cases hp : p.1 = k
    · by_cases hk : k' = k
      · simp [setKey, getVal, hp, hk]
      · have hpk : ¬(p.1 = k') := by
          rw [hp]
          exact fun hh => hk hh.symm
        have hkk : ¬(k = k') := fun hh => hk hh.symm
        simp [setKey, getVal, hp, hk, hpk, hkk]
    · by_cases hq : p.1 = k'
      · have hk : ¬(k' = k) := by
          intro hh
          rw [hh] at hq
          exact hp hq
        simp [setKey, getVal, hp, hq, hk]
      · simp [setKey, getVal, hp, hq, ih]

/-- Helper: `Object.assign` reads back, per key, the last binding of the
source when one exists and the target's binding otherwise. -/
theorem getVal_objAssign (dyn base : List (String × String)) (k : String) :
    getVal (objAssign base dyn) k =
      match lastVal dyn k with
      | some v => some v
      | none => getVal base k := by
  induction dyn generalizing base with
  | nil => simp [objAssign, lastVal]
  | cons p rest ih =>
    have hstep : objAssign base (p :: rest) = objAssign (setKey base p.1 p.2) rest := rfl
    rw [hstep, ih]
    cases hl : lastVal rest k with
    | some v => simp [lastVal, hl]
    | none =>
      simp [lastVal, hl, getVal_setKey]
      by_cases hpk : p.1 = k
      · rw [hpk]
        simp
      · have : ¬(k = p.1) := fun hh => hpk hh.symm
        simp [hpk, this]

/-- C5 counterexample: a `categories.json` entry reusing the seed id
`ai_ml` replaces the seed description in the loaded catalog, so a seed
id is *not* always mapped to its seed description. -/
theorem dynamic_overrides_seed :
    getVal (getCategoryDescriptions (some [("ai_ml", "overridden")])) "ai_ml" =
      some "overridden" ∧
    getVal BASE_CATEGORIES "ai_ml" =
      some "Artificial intelligence, machine learning, LLMs, neural networks, data science" ∧
    getVal (getCategoryDescriptions (some [("ai_ml", "overridden")])) "ai_ml" ≠
      getVal BASE_CATEGORIES "ai_ml" := by
  decide

/-- C5 (amended): catalog loading starts from the seed set and applies
the persisted entries over it: a category id bound in the dynamic file
loads with its (last) persisted description — overriding the seed
description when the id is also a seed id — and every other id loads
with its seed description; with no dynamic file the catalog is exactly
the seed set. -/
theorem catalog_merge_semantics (dyn : List (String × String)) (k : String) :
    getVal (getCategoryDescriptions (some dyn)) k =
      (match lastVal dyn k with
       | some v => some v
       | none => getVal BASE_CATEGORIES k) ∧
    getCategoryDescriptions none = BASE_CATEGORIES :=
  ⟨getVal_objAssign dyn BASE_CATEGORIES k, rfl⟩

/-! ## Claim theorems: item identity derivation -/

/-- C8 counterexample: for a record with no stable external id whose URL
ends in a slash, the trailing path segment is the empty string; the rule
as claimed yields that empty segment, but the code's truthiness
fallthrough yields the positional index instead. -/
theorem trailing_slash_id_mismatch :
    deriveId none (some "https://x.com/") 7 = "7" ∧
    specDeriveId none (some "https://x.com/") 7 = "" ∧
    deriveId none (some "https://x.com/") 7 ≠
      specDeriveId none (some "https://x.com/") 7 := by
  decide

/-- C8 (amended): the id of the item at position `i` is its
`metadata.rest_id` when present and non-empty; otherwise the trailing
path segment of its URL when the URL is present and that segment is
non-empty; otherwise the positional index rendered as a string — and
`getTweets` assigns exactly this id to the tweet it builds at position
`i`. -/
theorem id_derivation_amended (raw : List RawTweet)
    (progress : List (String × List String)) (i : Nat)
    (restId url : Option String) :
    ((getTweetsModel raw progress)[i]?.map fun t => t.id) =
      (raw[i]?.map fun t => deriveId t.rest_id t.url i) ∧
    deriveId restId url i = specDeriveIdAmended restId url i := by
  constructor
  · simp only [getTweetsModel, List.getElem?_map, List.getElem?_enum]
    cases raw[i]? with
    | none => rfl
    | some t => rfl
  · cases restId with
    | some r =>
      by_cases hr : r = ""
      · subst hr
        cases url with
        | none => simp [deriveId, specDeriveIdAmended, specUrlSegment, optTruthy]
        | some u =>
          by_cases hu : jsSplitPop u = "" <;>
            simp [deriveId, specDeriveIdAmended, specUrlSegment, optTruthy, hu]
      · simp [deriveId, specDeriveIdAmended, optTruthy, hr]
    | none =>
      cases url with
      | none => simp [deriveId, specDeriveIdAmended, specUrlSegment, optTruthy]
      | some u =>
        by_cases hu : jsSplitPop u = "" <;>
          simp [deriveId, specDeriveIdAmended, specUrlSegment, optTruthy, hu]

/-! ## Claim theorems: empty assignment means unclassified -/

/-- C9: a tweet is in the classified listing exactly when it is one of
the loaded tweets and its assigned-category set is non-empty; the stats
count the tweets and the tweets with a non-empty assignment; and every
tweet a category page lists has a non-empty assignment containing that
category. -/
theorem empty_assignment_unclassified (raw : List RawTweet)
    (progress : List (String × List String))
    (dyn : Option (List (String × String))) :
    (∀ t, t ∈ getClassifiedTweets raw progress ↔
      (t ∈ getTweetsModel raw progress ∧ t.categories ≠ [])) ∧
    (getStats raw progress dyn).totalTweets =
      (getTweetsModel raw progress).length ∧
    (getStats raw progress dyn).classifiedTweets =
      ((getTweetsModel raw progress).filter fun t =>
        decide (t.categories ≠ [])).length ∧
    ∀ c t, t ∈ getTweetsByCategory raw progress c →
      t.categories ≠ [] ∧ c ∈ t.categories := by
  refine ⟨?_, rfl, ?_, ?_⟩
  · intro t
    simp [getClassifiedTweets, List.mem_filter, List.length_pos]
  · show ((getTweetsModel raw progress).filter fun t =>
        decide (0 < t.categories.length)).length = _
    congr 1
    apply List.filter_congr
    intro t _
    simp [List.length_pos]
  · intro c t hmem
    simp only [getTweetsByCategory, getClassifiedTweets, List.mem_filter] at hmem
    obtain ⟨⟨_, hlen⟩, hc⟩ := hmem
    constructor
    · simpa [List.length_pos] using hlen
    · simpa using hc

/-- Witness for C9 on a one-item store with one assignment. -/
theorem empty_assignment_unclassified_witness :
    (Tweet.mk "42" "hello" "alice" "http://x/42" ["tech"]).categories ≠ [] ∧
    "tech" ∈ (Tweet.mk "42" "hello" "alice" "http://x/42" ["tech"]).categories :=
  (empty_assignment_unclassified
      [⟨some "42", some "hello", some "alice", some "http://x/42"⟩]
      [("42", ["tech"])] none).2.2.2 "tech"
    (Tweet.mk "42" "hello" "alice" "http://x/42" ["tech"]) (by decide)

/-! ## Claim theorems: the AI client -/

/-- C7: a missing API credential makes the call fail with a thrown error
before any request, and a non-2xx response makes it fail with a thrown
error after the request; in neither case is a result returned. -/
theorem transport_failures_raise (apiKey : Option String) (r : FetchResp) :
    (apiKey = none → isErrorE (findRelevantCategoriesRun apiKey r) = true) ∧
    (respOk r = false → isErrorE (findRelevantCategoriesRun apiKey r) = true) := by
  constructor
  · intro h
    subst h
    rfl
  · intro h
    cases apiKey with
    | none => rfl
    | some k =>
      by_cases hk : k = "" <;>
        simp [findRelevantCategoriesRun, isErrorE, hk, h]

/-- Witness for C7: an unset key, and a 500 response with a key set. -/
theorem transport_failures_raise_witness :
    isErrorE (findRelevantCategoriesRun none ⟨200, "", ""⟩) = true ∧
    isErrorE (findRelevantCategoriesRun (some "key") ⟨500, "oops", ""⟩) = true :=
  ⟨(transport_failures_raise none ⟨200, "", ""⟩).1 rfl,
   (transport_failures_raise (some "key") ⟨500, "oops", ""⟩).2 (by decide)⟩

/-- C6 counterexample: on a reply with prose containing a closing brace
after the JSON object, the code's greedy first-brace-to-last-brace
fallback grabs an unparseable span and yields empty results, while the
claimed first-balanced-object scan parses the object and yields its
categories — so the fallback does not locate the first balanced
top-level object. -/
theorem greedy_fallback_mismatch :
    findRelevantCategoriesParse
        "pre \x7b\"categories\":[\"x\"],\"keywords\":[]\x7d post\x7d" = ([], []) ∧
    specTwoStageParse
        "pre \x7b\"categories\":[\"x\"],\"keywords\":[]\x7d post\x7d" = (["x"], []) ∧
    (([], []) : List String × List String) ≠ (["x"], []) := by
  decide

/-- Helper: the head of a non-empty `dropWhile` residue fails the
predicate. -/
theorem dropWhile_head_false {α : Type} {p : α → Bool} {l : List α} {x : α}
    {xs : List α} (h : l.dropWhile p = x :: xs) : p x = false := by
  induction l with
  | nil => cases h
  | cons a l ih =>
    rw [List.dropWhile_cons] at h
    by_cases hp : p a = true
    · rw [if_pos hp] at h
      exact ih h
    · rw [if_neg hp] at h
      cases h
      simpa using hp

/-- C6 (amended): the parse is two-stage — whenever the strict parse of
the fence-stripped, trimmed text succeeds, the result agrees with the
spec-modelled policy (the fallback is never consulted) — but the
fallback stage extracts the span from the *first opening brace to the
last closing brace* of the text: any span it returns decomposes the text
into a prefix with no opening brace, the brace-delimited span, and a
suffix with no closing brace.  This coincides with the first balanced
top-level object only when no closing brace follows it. -/
theorem two_stage_parse_amended :
    (∀ content : String,
      (jsonParseStrict (stripFence (trimChars content.data))).isSome = true →
      findRelevantCategoriesParse content = specTwoStageParse content) ∧
    ∀ (cs s : List Char), firstBraceToLast cs = some s →
      ∃ a b mid, cs = a ++ s ++ b ∧
        (∀ x ∈ a, x ≠ lbrace) ∧
        (∀ x ∈ b, x ≠ rbrace) ∧
        s = lbrace :: (mid ++ [rbrace]) := by
  constructor
  · intro content h
    unfold findRelevantCategoriesParse specTwoStageParse
    cases hv : jsonParseStrict (stripFence (trimChars content.data)) with
    | none => rw [hv] at h; cases h
    | some v => simp [hv]
  · intro cs s h
    unfold firstBraceToLast at h
    split at h
    · simp at h
    · rename_i b tail hd
      split at h
      · simp at h
      · rename_i r revMid hr
        have hs : s = b :: (r :: revMid).reverse := by
          injection h with h'
          exact h'.symm
        have hb : b = lbrace := by
          have := dropWhile_head_false hd
          simpa using this
        have hrb : r = rbrace := by
          have := dropWhile_head_false hr
          simpa using this
        have hcs : cs = cs.takeWhile (fun c => c ≠ lbrace) ++ (b :: tail) := by
          conv_lhs => rw [← List.takeWhile_append_dropWhile
            (fun c => decide (c ≠ lbrace)) cs]
          rw [hd]
        have htail : tail =
            (r :: revMid).reverse ++
              (tail.reverse.takeWhile (fun c => c ≠ rbrace)).reverse := by
          have h2 : tail.reverse =
              tail.reverse.takeWhile (fun c => c ≠ rbrace) ++ (r :: revMid) := by
            conv_lhs => rw [← List.takeWhile_append_dropWhile
              (fun c => decide (c ≠ rbrace)) tail.reverse]
            rw [hr]
          have h3 := congrArg List.reverse h2
          rw [List.reverse_reverse, List.reverse_append] at h3
          exact h3
        refine ⟨cs.takeWhile (fun c => c ≠ lbrace),
          (tail.reverse.takeWhile (fun c => c ≠ rbrace)).reverse,
          revMid.reverse, ?_, ?_, ?_, ?_⟩
        · rw [hs]
          calc cs = cs.takeWhile (fun c => c ≠ lbrace) ++ (b :: tail) := hcs
            _ = cs.takeWhile (fun c => c ≠ lbrace) ++
                (b :: ((r :: revMid).reverse ++
                  (tail.reverse.takeWhile (fun c => c ≠ rbrace)).reverse)) :=
              congrArg
                (fun l => cs.takeWhile (fun c => c ≠ lbrace) ++ (b :: l)) htail
            _ = cs.takeWhile (fun c => c ≠ lbrace) ++ (b :: (r :: revMid).reverse) ++
                (tail.reverse.takeWhile (fun c => c ≠ rbrace)).reverse := by
              simp
        · intro x hx
          have := List.mem_takeWhile_imp hx
          simpa using this
        · intro x hx
          rw [List.mem_reverse] at hx
          have := List.mem_takeWhile_imp hx
          simpa using this
        · rw [hs, hb, hrb]
          simp

/-- Witness for the amended C6: a fenced clean reply takes the strict
stage, and a brace-delimited span decomposes as stated. -/
theorem two_stage_parse_amended_witness :
    findRelevantCategoriesParse "\x7b\"categories\":[\"a\"],\"keywords\":[]\x7d" =
      specTwoStageParse "\x7b\"categories\":[\"a\"],\"keywords\":[]\x7d" ∧
    ∃ a b mid, ("x\x7by\x7dz").data = a ++ ("\x7by\x7d").data ++ b ∧
      (∀ x ∈ a, x ≠ lbrace) ∧
      (∀ x ∈ b, x ≠ rbrace) ∧
      ("\x7by\x7d").data = lbrace :: (mid ++ [rbrace]) :=
  ⟨two_stage_parse_amended.1 "\x7b\"categories\":[\"a\"],\"keywords\":[]\x7d"
      (by decide),
   two_stage_parse_amended.2 ("x\x7by\x7dz").data ("\x7by\x7d").data (by decide)⟩

/-! ## Claim theorems: the AI search merge -/

/-- Helper: everything the deduplication pass keeps comes from its
input. -/
theorem mem_of_mem_dedupById (seen : List String) (ts : List Tweet)
    (t : Tweet) (h : t ∈ dedupById seen ts) : t ∈ ts := by
  induction ts generalizing seen with
  | nil => cases h
  | cons x ts ih =>
    by_cases hc : seen.contains x.id = true
    · simp only [dedupById, if_pos hc] at h
      exact List.mem_cons_of_mem x (ih seen h)
    · simp only [dedupById, if_neg hc] at h
      rcases List.mem_cons.mp h with h | h
      · subst h
        exact List.mem_cons_self t ts
      · exact List.mem_cons_of_mem x (ih (x.id :: seen) h)

/-- Helper: the deduplication pass never keeps an id it has already
seen. -/
theorem dedupById_not_seen (seen : List String) (ts : List Tweet)
    (t : Tweet) (h : t ∈ dedupById seen ts) : seen.contains t.id = false := by
  induction ts generalizing seen with
  | nil => cases h
  | cons x ts ih =>
    by_cases hc : seen.contains x.id = true
    · simp only [dedupById, if_pos hc] at h
      exact ih seen h
    · simp only [dedupById, if_neg hc] at h
      rcases List.mem_cons.mp h with h | h
      · subst h
        simpa using hc
      · have := ih (x.id :: seen) h
        simp only [List.contains_cons, Bool.or_eq_false_iff] at this
        exact this.2

/-- Helper: the ids the deduplication pass keeps are pairwise
distinct. -/
theorem dedupById_nodup (seen : List String) (ts : List Tweet) :
    ((dedupById seen ts).map fun t => t.id).Nodup := by
  induction ts generalizing seen with
  | nil => simp [dedupById]
  | cons x ts ih =>
    by_cases hc : seen.contains x.id = true
    · simp only [dedupById, if_pos hc]
      exact ih seen
    · simp only [dedupById, if_neg hc, List.map_cons, List.nodup_cons]
      refine ⟨?_, ih (x.id :: seen)⟩
      intro hmem
      obtain ⟨u, hu, hid⟩ := List.mem_map.mp hmem
      have := dedupById_not_seen (x.id :: seen) ts u hu
      rw [hid] at this
      simp at this

/-- Helper: the seen accumulator picks up the id of every processed
tweet, and keeps everything it already had. -/
theorem seenAfter_mono (seen : List String) (ts : List Tweet) (a : String)
    (h : seen.contains a = true) : (seenAfter seen ts).contains a = true := by
  induction ts generalizing seen with
  | nil => exact h
  | cons x ts ih =>
    by_cases hc : seen.contains x.id = true
    · simp only [seenAfter, if_pos hc]
      exact ih seen h
    · simp only [seenAfter, if_neg hc]
      refine ih (x.id :: seen) ?_
      have ha : a ∈ seen := by simpa using h
      simp [ha]

/-- Helper: after processing, every processed tweet's id is in the
accumulator. -/
theorem seenAfter_contains (seen : List String) (ts : List Tweet)
    (t : Tweet) (h : t ∈ ts) : (seenAfter seen ts).contains t.id = true := by
  induction ts generalizing seen with
  | nil => cases h
  | cons x ts ih =>
    by_cases hc : seen.contains x.id = true
    · simp only [seenAfter, if_pos hc]
      rcases List.mem_cons.mp h with h | h
      · subst h
        exact seenAfter_mono seen ts t.id hc
      · exact ih seen h
    · simp only [seenAfter, if_neg hc]
      rcases List.mem_cons.mp h with h | h
      · subst h
        exact seenAfter_mono (t.id :: seen) ts t.id (by simp)
      · exact ih (x.id :: seen) h

/-- Helper: deduplicating a concatenation is deduplicating the first
part, then the second with the accumulated seen set. -/
theorem dedupById_append (seen : List String) (xs ys : List Tweet) :
    dedupById seen (xs ++ ys) =
      dedupById seen xs ++ dedupById (seenAfter seen xs) ys := by
  induction xs generalizing seen with
  | nil => rfl
  | cons x xs ih =>
    by_cases hc : seen.contains x.id = true
    · simp only [List.cons_append, dedupById, seenAfter, if_pos hc]
      exact ih seen
    · simp only [List.cons_append, dedupById, seenAfter, if_neg hc]
      exact congrArg (fun l => x :: l) (ih (x.id :: seen))

/-- C10: for every query, the merged AI-search result list contains each
tweet id at most once, and it splits into a prefix of tweets matching an
AI-selected category followed by a suffix of tweets matching none (the
keyword-only results), so every category match precedes every
keyword-only match. -/
theorem ai_search_unique_ordered (allTweets : List Tweet)
    (cats keywords : List String) :
    ((aiMerge allTweets cats keywords).map fun t => t.id).Nodup ∧
    ∃ A B, aiMerge allTweets cats keywords = A ++ B ∧
      (∀ t ∈ A, matchesCategory cats t = true) ∧
      ∀ t ∈ B, matchesCategory cats t = false := by
  constructor
  · exact dedupById_nodup [] _
  · refine ⟨dedupById [] (allTweets.filter (matchesCategory cats)),
      dedupById (seenAfter [] (allTweets.filter (matchesCategory cats)))
        (allTweets.filter (matchesKeyword keywords)), ?_, ?_, ?_⟩
    · exact dedupById_append [] _ _
    · intro t ht
      have := mem_of_mem_dedupById _ _ t ht
      exact (List.mem_filter.mp this).2
    · intro t ht
      have hmemk := mem_of_mem_dedupById _ _ t ht
      have hall : t ∈ allTweets := (List.mem_filter.mp hmemk).1
      by_cases hcat : matchesCategory cats t = true
      · have hbc : t ∈ allTweets.filter (matchesCategory cats) :=
          List.mem_filter.mpr ⟨hall, hcat⟩
        have hseen := seenAfter_contains [] _ t hbc
        have hnot := dedupById_not_seen _ _ t ht
        rw [hseen] at hnot
        cases hnot
      · simpa using hcat

/-- Witness for C10 on a two-tweet store with one category match and one
keyword-only match. -/
theorem ai_search_unique_ordered_witness :
    ((aiMerge [⟨"1", "alpha", "a", "u", ["c"]⟩, ⟨"2", "beta", "b", "u", ["d"]⟩]
        ["c"] ["beta"]).map fun t => t.id).Nodup :=
  (ai_search_unique_ordered
    [⟨"1", "alpha", "a", "u", ["c"]⟩, ⟨"2", "beta", "b", "u", ["d"]⟩]
    ["c"] ["beta"]).1

/-- Witness for the amended C4 at a concrete mid-run state. -/
theorem cancel_frame_single_flight_witness :
    (step (runTrace [Op.post, Op.post]) (Op.cancel 0)).running =
      (runTrace [Op.post, Op.post]).running :=
  (cancel_frame_single_flight (runTrace [Op.post, Op.post]) 0).1

/-- Witness for the amended C5 on a dynamic file adding one new id. -/
theorem catalog_merge_semantics_witness :
    getVal (getCategoryDescriptions (some [("new_topic", "fresh")])) "new_topic" =
      (match lastVal [("new_topic", "fresh")] "new_topic" with
       | some v => some v
       | none => getVal BASE_CATEGORIES "new_topic") :=
  (catalog_merge_semantics [("new_topic", "fresh")] "new_topic").1

/-- Witness for the amended C8 on a one-item store. -/
theorem id_derivation_amended_witness :
    deriveId (some "99") (some "https://x.com/s/99") 0 =
      specDeriveIdAmended (some "99") (some "https://x.com/s/99") 0 :=
  (id_derivation_amended [⟨some "99", none, none, some "https://x.com/s/99"⟩]
    [] 0 (some "99") (some "https://x.com/s/99")).2

end TweetVault
